import Mathlib

/-!
Verification of `src/vue/src/services/api.js`.

The module is a thin HTTP facade: it selects a base URL from `process.env.NODE_ENV`,
creates an axios client with two pass-through interceptors, and exposes five
operations.  Four of them issue one request each, the fifth (`getFrameImageUrl`)
builds a URL string with `encodeURIComponent`.

Embedding.
* A JavaScript string is the list of its UTF-16 code units (`JSString`), each a
  natural number below `65536` (`IsJSString`).
* The built-ins the module calls (`encodeURIComponent`, and `decodeURIComponent`
  which the specification mentions) follow the abstract operations `Encode`,
  `Decode`, `CodePointAt`, `UTF16EncodeCodePoint` of ECMA-262.  A thrown
  `URIError` is the result `none`.
* A promise that has settled is an `Outcome`; the transport below axios (its
  adapter together with the backend) is a function from the dispatched request
  configuration to the outcome of the exchange.
-/

namespace QwenVL

/-! ## JavaScript strings -/

/-- A JavaScript string, as the sequence of its UTF-16 code units. -/
abbrev JSString := List Nat

/-- Every element is a 16-bit code unit. -/
def IsJSString (s : JSString) : Prop := ∀ c ∈ s, c < 65536

instance (s : JSString) : Decidable (IsJSString s) := by
  unfold IsJSString; infer_instance

/-- ECMA-262 `UTF16EncodeCodePoint(cp)`: one code unit for the Basic Multilingual
Plane, otherwise a leading and a trailing surrogate. -/
def UTF16EncodeCodePoint (cp : Nat) : JSString :=
  if cp ≤ 0xFFFF then [cp]
  else [(cp - 0x10000) / 0x400 + 0xD800, (cp - 0x10000) % 0x400 + 0xDC00]

/-- The value of a string literal of the source: the UTF-16 code units of its
characters. -/
def lit (s : String) : JSString :=
  (s.toList.map fun c => UTF16EncodeCodePoint c.toNat).flatten

/-- A code unit in `0xD800 .. 0xDBFF`. -/
def isLeadingSurrogate (c : Nat) : Bool := decide (0xD800 ≤ c ∧ c ≤ 0xDBFF)

/-- A code unit in `0xDC00 .. 0xDFFF`. -/
def isTrailingSurrogate (c : Nat) : Bool := decide (0xDC00 ≤ c ∧ c ≤ 0xDFFF)

/-- ECMA-262 `UTF16SurrogatePairToCodePoint(lead, trail)`. -/
def UTF16SurrogatePairToCodePoint (lead trail : Nat) : Nat :=
  (lead - 0xD800) * 0x400 + (trail - 0xDC00) + 0x10000

/-- The record `CodePointAt` returns. -/
structure CodePointRecord where
  CodePoint : Nat
  CodeUnitCount : Nat
  IsUnpairedSurrogate : Bool
  deriving DecidableEq, Repr

/-- ECMA-262 `CodePointAt(string, position)`, with the string from `position` on
given as `first :: rest`. -/
def CodePointAt (first : Nat) (rest : JSString) : CodePointRecord :=
  if !isLeadingSurrogate first && !isTrailingSurrogate first then
    { CodePoint := first, CodeUnitCount := 1, IsUnpairedSurrogate := false }
  else if isTrailingSurrogate first then
    { CodePoint := first, CodeUnitCount := 1, IsUnpairedSurrogate := true }
  else
    match rest with
    | [] => { CodePoint := first, CodeUnitCount := 1, IsUnpairedSurrogate := true }
    | second :: _ =>
      if !isTrailingSurrogate second then
        { CodePoint := first, CodeUnitCount := 1, IsUnpairedSurrogate := true }
      else
        { CodePoint := UTF16SurrogatePairToCodePoint first second
          CodeUnitCount := 2
          IsUnpairedSurrogate := false }

/-! ## `encodeURIComponent` -/

/-- ECMA-262 `Encode`, step 3: the code units that are never escaped (ASCII
letters, digits, underscore, and the marks). -/
def alwaysUnescaped : JSString :=
  lit "ABCDEFGHIJKLMNOPQRSTUVWXYZabcdefghijklmnopqrstuvwxyz0123456789_-.!~*'()"

/-- The UTF-8 encoding of a code point, as a list of octets. -/
def utf8Encode (cp : Nat) : List Nat :=
  if cp < 0x80 then [cp]
  else if cp < 0x800 then [0xC0 + cp / 0x40, 0x80 + cp % 0x40]
  else if cp < 0x10000 then
    [0xE0 + cp / 0x1000, 0x80 + cp / 0x40 % 0x40, 0x80 + cp % 0x40]
  else
    [0xF0 + cp / 0x40000, 0x80 + cp / 0x1000 % 0x40, 0x80 + cp / 0x40 % 0x40,
      0x80 + cp % 0x40]

/-- The upper-case hexadecimal digit for a value below sixteen. -/
def hexDigitUpper (d : Nat) : Nat := if d < 10 then 48 + d else 55 + d

/-- One octet as `%XX`: a percent sign and two upper-case hexadecimal digits. -/
def percentEncodeOctet (octet : Nat) : JSString :=
  [37, hexDigitUpper (octet / 16), hexDigitUpper (octet % 16)]

/-- The octets of a code point, each written `%XX`. -/
def percentEncode (octets : List Nat) : JSString :=
  (octets.map percentEncodeOctet).flatten

/-- ECMA-262 `Encode(string, extraUnescaped)` with an empty `extraUnescaped`, the
loop run on the part of the string from index `k` on.  `none` is a thrown
`URIError`. -/
def Encode : JSString → Option JSString
  | [] => some []
  | C :: rest =>
    if C ∈ alwaysUnescaped then
      (Encode rest).map fun R => C :: R
    else
      let cp := CodePointAt C rest
      if cp.IsUnpairedSurrogate then none
      else
        let escaped := percentEncode (utf8Encode cp.CodePoint)
        match rest with
        | [] => some escaped
        | second :: rest2 =>
          if cp.CodeUnitCount = 2 then (Encode rest2).map fun R => escaped ++ R
          else (Encode (second :: rest2)).map fun R => escaped ++ R

/-- The global function `encodeURIComponent`, on a string argument. -/
def encodeURIComponent (uriComponent : JSString) : Option JSString :=
  Encode uriComponent

/-! ## `decodeURIComponent` -/

/-- The value of a hexadecimal digit, upper or lower case. -/
def hexValue (c : Nat) : Option Nat :=
  if 48 ≤ c ∧ c ≤ 57 then some (c - 48)
  else if 65 ≤ c ∧ c ≤ 70 then some (c - 55)
  else if 97 ≤ c ∧ c ≤ 102 then some (c - 87)
  else none

/-- A code unit that is a hexadecimal digit. -/
def isHexDigit (c : Nat) : Bool := (hexValue c).isSome

/-- ECMA-262 `ParseHexOctet`, on the two code units after a percent sign. -/
def ParseHexOctet (h1 h2 : Nat) : Option Nat :=
  match hexValue h1, hexValue h2 with
  | some a, some b => some (16 * a + b)
  | _, _ => none

/-- The number of leading one bits of an octet. -/
def leadingOnes (B : Nat) : Nat :=
  if B < 0x80 then 0
  else if B < 0xC0 then 1
  else if B < 0xE0 then 2
  else if B < 0xF0 then 3
  else if B < 0xF8 then 4
  else if B < 0xFC then 5
  else if B < 0xFE then 6
  else if B < 0xFF then 7
  else 8

/-- ECMA-262 `Decode`, step vii.5: the next `m` escape sequences `%XX`, as their
octets together with the text that follows them. -/
def continuationOctets : Nat → JSString → Option (List Nat × JSString)
  | 0, s => some ([], s)
  | m + 1, c :: h1 :: h2 :: s =>
    if c = 37 then
      match ParseHexOctet h1 h2 with
      | none => none
      | some b => (continuationOctets m s).map fun r => (b :: r.1, r.2)
    else none
  | _ + 1, _ => none

/-- An octet `10xxxxxx`. -/
def isContinuationOctet (b : Nat) : Bool := decide (0x80 ≤ b ∧ b ≤ 0xBF)

/-- The code point that two to four octets encode in UTF-8, when they are a valid
encoding: continuation octets in range, no overlong form, no surrogate, at most
`0x10FFFF`. -/
def utf8Decode : List Nat → Option Nat
  | [b0, b1] =>
    let V := (b0 - 0xC0) * 0x40 + (b1 - 0x80)
    if 0xC0 ≤ b0 ∧ b0 < 0xE0 ∧ isContinuationOctet b1 ∧ 0x80 ≤ V then some V else none
  | [b0, b1, b2] =>
    let V := (b0 - 0xE0) * 0x1000 + (b1 - 0x80) * 0x40 + (b2 - 0x80)
    if 0xE0 ≤ b0 ∧ b0 < 0xF0 ∧ isContinuationOctet b1 ∧ isContinuationOctet b2 ∧ 0x800 ≤ V
        ∧ ¬ (0xD800 ≤ V ∧ V ≤ 0xDFFF) then some V else none
  | [b0, b1, b2, b3] =>
    let V := (b0 - 0xF0) * 0x40000 + (b1 - 0x80) * 0x1000 + (b2 - 0x80) * 0x40 + (b3 - 0x80)
    if 0xF0 ≤ b0 ∧ b0 < 0xF8 ∧ isContinuationOctet b1 ∧ isContinuationOctet b2
        ∧ isContinuationOctet b3 ∧ 0x10000 ≤ V ∧ V ≤ 0x10FFFF then some V else none
  | _ => none

/-- ECMA-262 `Decode(string, preserveEscapeSet)` with an empty `preserveEscapeSet`,
the loop run on the part of the string from index `k` on.  Each round of the loop
uses one unit of `fuel`; `none` is a thrown `URIError`. -/
def DecodeLoop : Nat → JSString → Option JSString
  | _, [] => some []
  | 0, _ :: _ => none
  | fuel + 1, C :: rest =>
    if C ≠ 37 then
      (DecodeLoop fuel rest).map fun R => C :: R
    else
      match rest with
      | h1 :: h2 :: rest2 =>
        match ParseHexOctet h1 h2 with
        | none => none
        | some B =>
          let n := leadingOnes B
          if n = 0 then
            (DecodeLoop fuel rest2).map fun R => B :: R
          else if n = 1 ∨ n > 4 then none
          else
            match continuationOctets (n - 1) rest2 with
            | none => none
            | some (octets, rest3) =>
              match utf8Decode (B :: octets) with
              | none => none
              | some V => (DecodeLoop fuel rest3).map fun R => UTF16EncodeCodePoint V ++ R
      | _ => none

/-- The loop of `Decode` with one round available for every code unit. -/
def Decode (s : JSString) : Option JSString := DecodeLoop s.length s

/-- The global function `decodeURIComponent`, on a string argument. -/
def decodeURIComponent (encodedURIComponent : JSString) : Option JSString :=
  Decode encodedURIComponent

/-! ## Predicates and readers the properties are stated with -/

/-- `String.prototype.isWellFormed`: no unpaired surrogate. -/
def isWellFormed : JSString → Bool
  | [] => true
  | c :: rest =>
    if isLeadingSurrogate c then
      match rest with
      | [] => false
      | d :: rest2 => isTrailingSurrogate d && isWellFormed rest2
    else !isTrailingSurrogate c && isWellFormed rest

/-- Text made of unescaped code units and of escape sequences: a percent sign
followed by two hexadecimal digits. -/
def isEscapedText : JSString → Bool
  | [] => true
  | c :: rest =>
    if c = 37 then
      match rest with
      | h1 :: h2 :: rest2 => isHexDigit h1 && isHexDigit h2 && isEscapedText rest2
      | _ => false
    else decide (c ∈ alwaysUnescaped) && isEscapedText rest

/-- The part of a string after the first occurrence of `sep`. -/
def afterFirst (sep : Nat) : JSString → JSString
  | [] => []
  | c :: rest => if c = sep then rest else afterFirst sep rest

/-- The pieces of a string between the occurrences of `sep`. -/
def splitAll (sep : Nat) : JSString → List JSString
  | [] => [[]]
  | c :: rest =>
    if c = sep then [] :: splitAll sep rest
    else
      match splitAll sep rest with
      | [] => [[c]]
      | piece :: pieces => (c :: piece) :: pieces

/-- A string cut at the first occurrence of `sep`. -/
def splitFirst (sep : Nat) : JSString → Option (JSString × JSString)
  | [] => none
  | c :: rest =>
    if c = sep then some ([], rest)
    else (splitFirst sep rest).map fun p => (c :: p.1, p.2)

/-- The query of a URL: the part after the first `?`. -/
def queryPart (url : JSString) : JSString := afterFirst 63 url

/-- The query of a URL read as pairs: split at `&`, each piece at its first `=`. -/
def queryPairs (url : JSString) : List (Option (JSString × JSString)) :=
  (splitAll 38 (queryPart url)).map (splitFirst 61)

/-! ## The module -/

/-- Line 4: `process.env.NODE_ENV === 'development' ? '/api' : 'http://localhost:8000'`.
The environment entry is a string or absent (`undefined`). -/
def API_BASE (NODE_ENV : Option JSString) : JSString :=
  if NODE_ENV = some (lit "development") then lit "/api" else lit "http://localhost:8000"

/-! ### The axios client -/

/-- A JavaScript value, as far as request and response bodies need one. -/
inductive JSValue where
  | undefined
  | null
  | boolean (b : Bool)
  | number (n : Int)
  | string (s : JSString)
  | object (entries : List (JSString × JSValue))

/-- The request methods the module uses. -/
inductive Method where
  | get
  | post
  deriving DecidableEq, Repr

/-- The request configuration axios hands to its adapter.  `data` is `none` when
the call gave no body. -/
structure AxiosRequestConfig where
  method : Method
  url : JSString
  data : Option JSValue
  baseURL : JSString
  timeout : Nat

/-- The response object of axios: the body under `data`, next to the status and the
headers. -/
structure AxiosResponse where
  data : JSValue
  status : Nat
  statusText : JSString
  headers : JSValue
  config : AxiosRequestConfig

/-- A settled promise. -/
inductive Outcome (α : Type) where
  | fulfilled (value : α)
  | rejected (reason : JSValue)

/-- The settled result of `promise.then(onFulfilled, onRejected)`. -/
def Outcome.andThen {α β : Type} (p : Outcome α) (onFulfilled : α → Outcome β)
    (onRejected : JSValue → Outcome β) : Outcome β :=
  match p with
  | .fulfilled value => onFulfilled value
  | .rejected reason => onRejected reason

/-- The transport below the client: what the exchange for a dispatched request
settles to. -/
abbrev Adapter := AxiosRequestConfig → Outcome AxiosResponse

/-- What a call on the client did: the requests handed to the transport, in
order, and what the returned promise settles to. -/
structure Exchange where
  sent : List AxiosRequestConfig
  result : Outcome JSValue

namespace apiClient

/-- Line 12, first handler: `config => config`. -/
def requestFulfilled (config : AxiosRequestConfig) : Outcome AxiosRequestConfig :=
  .fulfilled config

/-- Line 12, second handler: `error => Promise.reject(error)`. -/
def requestRejected (error : JSValue) : Outcome AxiosRequestConfig :=
  .rejected error

/-- Line 15, first handler: `response => response.data`. -/
def responseFulfilled (response : AxiosResponse) : Outcome JSValue :=
  .fulfilled response.data

/-- Line 15, second handler: `error => Promise.reject(error)`. -/
def responseRejected (error : JSValue) : Outcome JSValue :=
  .rejected error

/-- The promise chain of `Axios.prototype.request`: the request interceptor, the
dispatch to the transport, the response interceptor. -/
def request (adapter : Adapter) (config : AxiosRequestConfig) : Exchange :=
  match (Outcome.fulfilled config).andThen requestFulfilled requestRejected with
  | .fulfilled dispatched =>
    { sent := [dispatched]
      result := (adapter dispatched).andThen responseFulfilled responseRejected }
  | .rejected reason =>
    { sent := []
      result := (Outcome.rejected reason : Outcome AxiosResponse).andThen
        responseFulfilled responseRejected }

/-- The call `apiClient.post(url, data)` on the client of lines 6 to 9. -/
def post (NODE_ENV : Option JSString) (adapter : Adapter) (url : JSString) (data : JSValue) :
    Exchange :=
  request adapter
    { method := .post, url := url, data := some data, baseURL := API_BASE NODE_ENV,
      timeout := 30000 }

/-- The call `apiClient.get(url)` on the client of lines 6 to 9. -/
def get (NODE_ENV : Option JSString) (adapter : Adapter) (url : JSString) : Exchange :=
  request adapter
    { method := .get, url := url, data := none, baseURL := API_BASE NODE_ENV,
      timeout := 30000 }

end apiClient

namespace api

/-- Lines 19 to 21: `return await apiClient.post('/scan_folder', { folder_path: folderPath })`.
The async function settles as the awaited promise does. -/
def scanFolder (NODE_ENV : Option JSString) (adapter : Adapter) (folderPath : JSString) :
    Exchange :=
  apiClient.post NODE_ENV adapter (lit "/scan_folder")
    (.object [(lit "folder_path", .string folderPath)])

/-- Lines 24 to 28: the template literal, its two substitutions evaluated from
left to right.  `none` is the `URIError` that either call may throw. -/
def getFrameImageUrl (NODE_ENV : Option JSString) (folderPath filename : JSString) :
    Option JSString :=
  match encodeURIComponent folderPath with
  | none => none
  | some e1 =>
    match encodeURIComponent filename with
    | none => none
    | some e2 =>
      some (API_BASE NODE_ENV ++ lit "/frame_image?folder_path=" ++ e1 ++ lit "&filename=" ++ e2)

/-- Line 30: `await apiClient.post('/segment_frame', data)`. -/
def segmentFrame (NODE_ENV : Option JSString) (adapter : Adapter) (data : JSValue) : Exchange :=
  apiClient.post NODE_ENV adapter (lit "/segment_frame") data

/-- Line 31: `await apiClient.post('/segment_frames', data)`. -/
def segmentFrames (NODE_ENV : Option JSString) (adapter : Adapter) (data : JSValue) : Exchange :=
  apiClient.post NODE_ENV adapter (lit "/segment_frames") data

/-- Line 32: `await apiClient.get(` the template `/task_status/` followed by
`taskId` `)`. -/
def getTaskStatus (NODE_ENV : Option JSString) (adapter : Adapter) (taskId : JSString) :
    Exchange :=
  apiClient.get NODE_ENV adapter (lit "/task_status/" ++ taskId)

end api

/-- The outcome mapping the specification gives a request-issuing operation: one
request is handed to the transport; when the transport succeeds with a response
the operation resolves to the `data` of that response; when it fails with an error
the operation rejects with that error and does not resolve. -/
def MapsOutcome (adapter : Adapter) (x : Exchange) : Prop :=
  ∃ config, x.sent = [config] ∧
    (∀ response, adapter config = .fulfilled response → x.result = .fulfilled response.data) ∧
    (∀ error, adapter config = .rejected error →
      x.result = .rejected error ∧ ∀ value, x.result ≠ .fulfilled value)

/-! ## The unescaped set -/

theorem alwaysUnescaped_lt (c : Nat) (h : c ∈ alwaysUnescaped) : c < 128 := by
  have key : ∀ x ∈ alwaysUnescaped, x < 128 := by decide
  exact key c h

theorem alwaysUnescaped_ne_percent (c : Nat) (h : c ∈ alwaysUnescaped) : c ≠ 37 := by
  rintro rfl
  exact absurd h (by decide)

theorem isLeadingSurrogate_iff (c : Nat) : isLeadingSurrogate c = true ↔ 0xD800 ≤ c ∧ c ≤ 0xDBFF := by
  simp [isLeadingSurrogate]

theorem isTrailingSurrogate_iff (c : Nat) :
    isTrailingSurrogate c = true ↔ 0xDC00 ≤ c ∧ c ≤ 0xDFFF := by
  simp [isTrailingSurrogate]

/-! ## Unfolding `Encode` -/

theorem Encode_cons_unescaped (C : Nat) (rest : JSString) (h : C ∈ alwaysUnescaped) :
    Encode (C :: rest) = (Encode rest).map fun R => C :: R := by
  rw [Encode]; simp [h]

theorem Encode_cons_scalar (C : Nat) (rest : JSString) (h : C ∉ alwaysUnescaped)
    (hl : isLeadingSurrogate C = false) (ht : isTrailingSurrogate C = false) :
    Encode (C :: rest) = (Encode rest).map fun R => percentEncode (utf8Encode C) ++ R := by
  rw [Encode]
  cases rest with
  | nil => simp [h, CodePointAt, hl, ht, Encode]
  | cons d rest2 => simp [h, CodePointAt, hl, ht]

theorem Encode_cons_pair (C d : Nat) (rest2 : JSString) (hl : isLeadingSurrogate C = true)
    (ht : isTrailingSurrogate d = true) :
    Encode (C :: d :: rest2) = (Encode rest2).map fun R =>
      percentEncode (utf8Encode (UTF16SurrogatePairToCodePoint C d)) ++ R := by
  have hC : C ∉ alwaysUnescaped := by
    intro hm
    have := alwaysUnescaped_lt C hm
    rw [isLeadingSurrogate_iff] at hl
    omega
  have htC : isTrailingSurrogate C = false := by
    rw [isLeadingSurrogate_iff] at hl
    cases hq : isTrailingSurrogate C with
    | false => rfl
    | true => rw [isTrailingSurrogate_iff] at hq; omega
  rw [Encode]
  simp [hC, CodePointAt, hl, ht, htC]

theorem Encode_cons_trailing (C : Nat) (rest : JSString) (ht : isTrailingSurrogate C = true) :
    Encode (C :: rest) = none := by
  have hC : C ∉ alwaysUnescaped := by
    intro hm
    have := alwaysUnescaped_lt C hm
    rw [isTrailingSurrogate_iff] at ht
    omega
  rw [Encode]
  simp [hC, CodePointAt, ht]

theorem Encode_leading_nil (C : Nat) (hl : isLeadingSurrogate C = true) :
    Encode [C] = none := by
  have hC : C ∉ alwaysUnescaped := by
    intro hm
    have := alwaysUnescaped_lt C hm
    rw [isLeadingSurrogate_iff] at hl
    omega
  rw [Encode]
  simp [hC, CodePointAt, hl]

theorem Encode_leading_unpaired (C d : Nat) (rest2 : JSString)
    (hl : isLeadingSurrogate C = true) (ht : isTrailingSurrogate d = false) :
    Encode (C :: d :: rest2) = none := by
  have hC : C ∉ alwaysUnescaped := by
    intro hm
    have := alwaysUnescaped_lt C hm
    rw [isLeadingSurrogate_iff] at hl
    omega
  rw [Encode]
  simp [hC, CodePointAt, hl, ht]

/-! ## Escape sequences -/

theorem hexValue_hexDigitUpper (d : Nat) (h : d < 16) : hexValue (hexDigitUpper d) = some d := by
  unfold hexValue hexDigitUpper
  by_cases h10 : d < 10
  · have h1 : 48 ≤ 48 + d ∧ 48 + d ≤ 57 := by omega
    simp [h10, h1]
  · have h1 : ¬ (48 ≤ 55 + d ∧ 55 + d ≤ 57) := by omega
    have h2 : 65 ≤ 55 + d ∧ 55 + d ≤ 70 := by omega
    simp [h10, h1, h2]

theorem isHexDigit_hexDigitUpper (d : Nat) (h : d < 16) : isHexDigit (hexDigitUpper d) = true := by
  simp [isHexDigit, hexValue_hexDigitUpper d h]

theorem ParseHexOctet_percent (b : Nat) (h : b < 256) :
    ParseHexOctet (hexDigitUpper (b / 16)) (hexDigitUpper (b % 16)) = some b := by
  unfold ParseHexOctet
  rw [hexValue_hexDigitUpper (b / 16) (by omega), hexValue_hexDigitUpper (b % 16) (by omega)]
  simp only [Option.some.injEq]
  omega

theorem DecodeLoop_cons_plain (fuel C : Nat) (rest : JSString) (h : C ≠ 37) :
    DecodeLoop (fuel + 1) (C :: rest) = (DecodeLoop fuel rest).map fun R => C :: R := by
  match rest with
  | [] => simp [DecodeLoop, h]
  | [_] => simp [DecodeLoop, h]
  | _ :: _ :: _ => simp [DecodeLoop, h]

theorem DecodeLoop_one (fuel b : Nat) (e : JSString) (h : b < 0x80) :
    DecodeLoop (fuel + 1) (percentEncodeOctet b ++ e) = (DecodeLoop fuel e).map fun R => b :: R := by
  have hp := ParseHexOctet_percent b (by omega)
  have hn : leadingOnes b = 0 := by simp [leadingOnes, h]
  simp only [percentEncodeOctet, List.cons_append, List.nil_append]
  rw [DecodeLoop]
  simp [hp, hn]

theorem DecodeLoop_two (fuel b0 b1 : Nat) (e : JSString) (h0 : 0xC0 ≤ b0) (h0u : b0 < 0xE0)
    (h1 : 0x80 ≤ b1) (h1u : b1 ≤ 0xBF) (hV : 0x80 ≤ (b0 - 0xC0) * 0x40 + (b1 - 0x80)) :
    DecodeLoop (fuel + 1) (percentEncodeOctet b0 ++ (percentEncodeOctet b1 ++ e)) =
      (DecodeLoop fuel e).map fun R =>
        UTF16EncodeCodePoint ((b0 - 0xC0) * 0x40 + (b1 - 0x80)) ++ R := by
  have hp0 := ParseHexOctet_percent b0 (by omega)
  have hp1 := ParseHexOctet_percent b1 (by omega)
  have hn : leadingOnes b0 = 2 := by
    unfold leadingOnes
    rw [if_neg (by omega), if_neg (by omega), if_pos (by omega)]
  have hc : isContinuationOctet b1 = true := by simp [isContinuationOctet, h1, h1u]
  simp only [percentEncodeOctet, List.cons_append, List.nil_append]
  rw [DecodeLoop]
  simp [hp0, hp1, hn, continuationOctets, utf8Decode, hc, h0, h0u, hV]

theorem DecodeLoop_three (fuel b0 b1 b2 : Nat) (e : JSString) (h0 : 0xE0 ≤ b0) (h0u : b0 < 0xF0)
    (h1 : 0x80 ≤ b1) (h1u : b1 ≤ 0xBF) (h2 : 0x80 ≤ b2) (h2u : b2 ≤ 0xBF)
    (hV : 0x800 ≤ (b0 - 0xE0) * 0x1000 + (b1 - 0x80) * 0x40 + (b2 - 0x80))
    (hS : ¬ (0xD800 ≤ (b0 - 0xE0) * 0x1000 + (b1 - 0x80) * 0x40 + (b2 - 0x80) ∧
      (b0 - 0xE0) * 0x1000 + (b1 - 0x80) * 0x40 + (b2 - 0x80) ≤ 0xDFFF)) :
    DecodeLoop (fuel + 1)
        (percentEncodeOctet b0 ++ (percentEncodeOctet b1 ++ (percentEncodeOctet b2 ++ e))) =
      (DecodeLoop fuel e).map fun R =>
        UTF16EncodeCodePoint ((b0 - 0xE0) * 0x1000 + (b1 - 0x80) * 0x40 + (b2 - 0x80)) ++ R := by
  have hp0 := ParseHexOctet_percent b0 (by omega)
  have hp1 := ParseHexOctet_percent b1 (by omega)
  have hp2 := ParseHexOctet_percent b2 (by omega)
  have hn : leadingOnes b0 = 3 := by
    unfold leadingOnes
    rw [if_neg (by omega), if_neg (by omega), if_neg (by omega), if_pos (by omega)]
  have hc1 : isContinuationOctet b1 = true := by simp [isContinuationOctet, h1, h1u]
  have hc2 : isContinuationOctet b2 = true := by simp [isContinuationOctet, h2, h2u]
  simp only [percentEncodeOctet, List.cons_append, List.nil_append]
  rw [DecodeLoop]
  simp only [ne_eq, not_true_eq_false, ↓reduceIte, hp0, hn, continuationOctets, hp1, hp2,
    Option.map_some', utf8Decode, hc1, hc2, h0, h0u, hV, true_and]
  simp [hS]

theorem DecodeLoop_four (fuel b0 b1 b2 b3 : Nat) (e : JSString) (h0 : 0xF0 ≤ b0)
    (h0u : b0 < 0xF8) (h1 : 0x80 ≤ b1) (h1u : b1 ≤ 0xBF) (h2 : 0x80 ≤ b2) (h2u : b2 ≤ 0xBF)
    (h3 : 0x80 ≤ b3) (h3u : b3 ≤ 0xBF)
    (hV : 0x10000 ≤
      (b0 - 0xF0) * 0x40000 + (b1 - 0x80) * 0x1000 + (b2 - 0x80) * 0x40 + (b3 - 0x80))
    (hU : (b0 - 0xF0) * 0x40000 + (b1 - 0x80) * 0x1000 + (b2 - 0x80) * 0x40 + (b3 - 0x80)
      ≤ 0x10FFFF) :
    DecodeLoop (fuel + 1)
        (percentEncodeOctet b0 ++ (percentEncodeOctet b1 ++ (percentEncodeOctet b2 ++
          (percentEncodeOctet b3 ++ e)))) =
      (DecodeLoop fuel e).map fun R =>
        UTF16EncodeCodePoint
          ((b0 - 0xF0) * 0x40000 + (b1 - 0x80) * 0x1000 + (b2 - 0x80) * 0x40 + (b3 - 0x80))
          ++ R := by
  have hp0 := ParseHexOctet_percent b0 (by omega)
  have hp1 := ParseHexOctet_percent b1 (by omega)
  have hp2 := ParseHexOctet_percent b2 (by omega)
  have hp3 := ParseHexOctet_percent b3 (by omega)
  have hn : leadingOnes b0 = 4 := by
    unfold leadingOnes
    rw [if_neg (by omega), if_neg (by omega), if_neg (by omega), if_neg (by omega),
      if_pos (by omega)]
  have hc1 : isContinuationOctet b1 = true := by simp [isContinuationOctet, h1, h1u]
  have hc2 : isContinuationOctet b2 = true := by simp [isContinuationOctet, h2, h2u]
  have hc3 : isContinuationOctet b3 = true := by simp [isContinuationOctet, h3, h3u]
  simp only [percentEncodeOctet, List.cons_append, List.nil_append]
  rw [DecodeLoop]
  simp only [ne_eq, not_true_eq_false, ↓reduceIte, hp0, hn, continuationOctets, hp1, hp2, hp3,
    Option.map_some', utf8Decode, hc1, hc2, hc3, h0, h0u, hV, hU, true_and]
  simp

/-! ## The fuel of `DecodeLoop` -/

theorem DecodeLoop_cons_percent (fuel h1 h2 : Nat) (rest2 : JSString) :
    DecodeLoop (fuel + 1) (37 :: h1 :: h2 :: rest2) =
      match ParseHexOctet h1 h2 with
      | none => none
      | some B =>
        if leadingOnes B = 0 then (DecodeLoop fuel rest2).map fun R => B :: R
        else if leadingOnes B = 1 ∨ leadingOnes B > 4 then none
        else
          match continuationOctets (leadingOnes B - 1) rest2 with
          | none => none
          | some (octets, rest3) =>
            match utf8Decode (B :: octets) with
            | none => none
            | some V => (DecodeLoop fuel rest3).map fun R => UTF16EncodeCodePoint V ++ R := by
  simp [DecodeLoop]

theorem continuationOctets_length (m : Nat) : ∀ (s : JSString) (octets : List Nat)
    (rest : JSString), continuationOctets m s = some (octets, rest) → rest.length ≤ s.length := by
  induction m with
  | zero =>
    intro s octets rest h
    simp [continuationOctets] at h
    rw [h.2]
  | succ m ih =>
    intro s octets rest h
    match s, h with
    | [], h => simp [continuationOctets] at h
    | [_], h => simp [continuationOctets] at h
    | [_, _], h => simp [continuationOctets] at h
    | c :: h1 :: h2 :: s2, h =>
      simp only [continuationOctets] at h
      split_ifs at h with hc
      cases hp : ParseHexOctet h1 h2 with
      | none => rw [hp] at h; simp at h
      | some b =>
        rw [hp] at h
        cases hr : continuationOctets m s2 with
        | none => rw [hr] at h; simp at h
        | some r =>
          rw [hr] at h
          simp only [Option.map_some', Option.some.injEq, Prod.mk.injEq] at h
          have := ih s2 r.1 r.2 hr
          rw [← h.2]
          simp only [List.length_cons]
          omega

theorem DecodeLoop_fuel_aux (n : Nat) : ∀ (s : JSString), s.length ≤ n → ∀ f1 f2,
    s.length ≤ f1 → s.length ≤ f2 → DecodeLoop f1 s = DecodeLoop f2 s := by
  induction n with
  | zero =>
    intro s hn f1 f2 _ _
    have : s = [] := List.length_eq_zero.mp (by omega)
    subst this
    cases f1 <;> cases f2 <;> simp [DecodeLoop]
  | succ n ih =>
    intro s hn f1 f2 h1 h2
    match s, hn, h1, h2 with
    | [], _, _, _ => cases f1 <;> cases f2 <;> simp [DecodeLoop]
    | C :: rest, hn, h1, h2 =>
      simp only [List.length_cons] at hn h1 h2
      obtain ⟨a, rfl⟩ : ∃ k, f1 = k + 1 := ⟨f1 - 1, by omega⟩
      obtain ⟨b, rfl⟩ : ∃ k, f2 = k + 1 := ⟨f2 - 1, by omega⟩
      by_cases hC : C = 37
      · subst hC
        match rest, hn, h1, h2 with
        | [], _, _, _ => simp [DecodeLoop]
        | [_], _, _, _ => simp [DecodeLoop]
        | x :: y :: rest2, hn, h1, h2 =>
          simp only [List.length_cons] at hn h1 h2
          rw [DecodeLoop_cons_percent, DecodeLoop_cons_percent]
          cases hp : ParseHexOctet x y with
          | none => rfl
          | some B =>
            simp only
            rw [ih rest2 (by omega) a b (by omega) (by omega)]
            cases hc : continuationOctets (leadingOnes B - 1) rest2 with
            | none => rfl
            | some r =>
              have hl := continuationOctets_length _ rest2 r.1 r.2 hc
              simp only
              rw [ih r.2 (by omega) a b (by omega) (by omega)]
      · rw [DecodeLoop_cons_plain a C rest hC, DecodeLoop_cons_plain b C rest hC,
          ih rest (by omega) a b (by omega) (by omega)]

/-- One round for every code unit is enough: with more fuel the loop of `Decode`
gives the same result. -/
theorem DecodeLoop_eq_Decode (fuel : Nat) (s : JSString) (h : s.length ≤ fuel) :
    DecodeLoop fuel s = Decode s :=
  DecodeLoop_fuel_aux s.length s (le_refl _) fuel s.length h (le_refl _)

theorem percentEncode_one (b : Nat) : percentEncode [b] = percentEncodeOctet b := by
  simp [percentEncode]

theorem percentEncode_cons (b : Nat) (bs : List Nat) :
    percentEncode (b :: bs) = percentEncodeOctet b ++ percentEncode bs := by
  simp [percentEncode]

theorem percentEncode_nil : percentEncode [] = [] := rfl

/-- Decoding undoes the escaping of one code point: the escape sequences of the
UTF-8 octets of a scalar value decode, in one round, to its UTF-16 code units. -/
theorem DecodeLoop_percentEncode (fuel cp : Nat) (e : JSString) (hU : cp ≤ 0x10FFFF)
    (hS : ¬ (0xD800 ≤ cp ∧ cp ≤ 0xDFFF)) :
    DecodeLoop (fuel + 1) (percentEncode (utf8Encode cp) ++ e) =
      (DecodeLoop fuel e).map fun R => UTF16EncodeCodePoint cp ++ R := by
  unfold utf8Encode
  by_cases c1 : cp < 0x80
  · rw [if_pos c1, percentEncode_one, DecodeLoop_one fuel cp e c1]
    have : UTF16EncodeCodePoint cp = [cp] := by
      unfold UTF16EncodeCodePoint; rw [if_pos (by omega)]
    simp [this]
  · rw [if_neg c1]
    by_cases c2 : cp < 0x800
    · rw [if_pos c2]
      simp only [percentEncode_cons, percentEncode_nil, List.append_nil, List.append_assoc]
      rw [DecodeLoop_two fuel _ _ e (by omega) (by omega) (by omega) (by omega) (by omega)]
      have : (0xC0 + cp / 0x40 - 0xC0) * 0x40 + (0x80 + cp % 0x40 - 0x80) = cp := by omega
      rw [this]
    · rw [if_neg c2]
      by_cases c3 : cp < 0x10000
      · rw [if_pos c3]
        simp only [percentEncode_cons, percentEncode_nil, List.append_nil, List.append_assoc]
        have hv : (0xE0 + cp / 0x1000 - 0xE0) * 0x1000 + (0x80 + cp / 0x40 % 0x40 - 0x80) * 0x40
            + (0x80 + cp % 0x40 - 0x80) = cp := by omega
        rw [DecodeLoop_three fuel _ _ _ e (by omega) (by omega) (by omega) (by omega) (by omega)
          (by omega) (by omega) (by omega)]
        rw [hv]
      · rw [if_neg c3]
        simp only [percentEncode_cons, percentEncode_nil, List.append_nil, List.append_assoc]
        have hv : (0xF0 + cp / 0x40000 - 0xF0) * 0x40000
            + (0x80 + cp / 0x1000 % 0x40 - 0x80) * 0x1000
            + (0x80 + cp / 0x40 % 0x40 - 0x80) * 0x40 + (0x80 + cp % 0x40 - 0x80) = cp := by
          omega
        rw [DecodeLoop_four fuel _ _ _ _ e (by omega) (by omega) (by omega) (by omega) (by omega)
          (by omega) (by omega) (by omega) (by omega) (by omega)]
        rw [hv]

theorem UTF16EncodeCodePoint_bmp (cp : Nat) (h : cp < 65536) : UTF16EncodeCodePoint cp = [cp] := by
  unfold UTF16EncodeCodePoint; rw [if_pos (by omega)]

theorem UTF16EncodeCodePoint_pair (C d : Nat) (hl : isLeadingSurrogate C = true)
    (ht : isTrailingSurrogate d = true) :
    UTF16EncodeCodePoint (UTF16SurrogatePairToCodePoint C d) = [C, d] := by
  rw [isLeadingSurrogate_iff] at hl
  rw [isTrailingSurrogate_iff] at ht
  unfold UTF16EncodeCodePoint UTF16SurrogatePairToCodePoint
  rw [if_neg (by omega)]
  have h1 : ((C - 0xD800) * 0x400 + (d - 0xDC00) + 0x10000 - 0x10000) / 0x400 + 0xD800 = C := by
    omega
  have h2 : ((C - 0xD800) * 0x400 + (d - 0xDC00) + 0x10000 - 0x10000) % 0x400 + 0xDC00 = d := by
    omega
  rw [h1, h2]

theorem UTF16SurrogatePairToCodePoint_range (C d : Nat) (hl : isLeadingSurrogate C = true)
    (ht : isTrailingSurrogate d = true) :
    0x10000 ≤ UTF16SurrogatePairToCodePoint C d ∧ UTF16SurrogatePairToCodePoint C d ≤ 0x10FFFF := by
  rw [isLeadingSurrogate_iff] at hl
  rw [isTrailingSurrogate_iff] at ht
  unfold UTF16SurrogatePairToCodePoint
  omega

theorem percentEncode_length (octets : List Nat) :
    (percentEncode octets).length = 3 * octets.length := by
  induction octets with
  | nil => rfl
  | cons b bs ih => rw [percentEncode_cons]; simp [percentEncodeOctet, ih]; omega

theorem utf8Encode_length_pos (cp : Nat) : 0 < (utf8Encode cp).length := by
  unfold utf8Encode
  split_ifs <;> simp

/-! ## The shape of a successful `Encode` -/

/-- How `Encode` produces a result for a non-empty string: an unescaped code unit is
copied, a scalar value of the Basic Multilingual Plane or a surrogate pair is
escaped. -/
theorem Encode_cons_some (C : Nat) (rest e : JSString) (h : Encode (C :: rest) = some e) :
    (C ∈ alwaysUnescaped ∧ ∃ e2, Encode rest = some e2 ∧ e = C :: e2) ∨
    (C ∉ alwaysUnescaped ∧ isLeadingSurrogate C = false ∧ isTrailingSurrogate C = false ∧
      ∃ e2, Encode rest = some e2 ∧ e = percentEncode (utf8Encode C) ++ e2) ∨
    (isLeadingSurrogate C = true ∧ ∃ d rest2 e2, rest = d :: rest2 ∧
      isTrailingSurrogate d = true ∧ Encode rest2 = some e2 ∧
      e = percentEncode (utf8Encode (UTF16SurrogatePairToCodePoint C d)) ++ e2) := by
  by_cases hu : C ∈ alwaysUnescaped
  · left
    rw [Encode_cons_unescaped C rest hu] at h
    cases hr : Encode rest with
    | none => rw [hr] at h; simp at h
    | some e2 => rw [hr] at h; simp at h; exact ⟨hu, e2, rfl, h.symm⟩
  · right
    cases ht : isTrailingSurrogate C with
    | true => rw [Encode_cons_trailing C rest ht] at h; simp at h
    | false =>
      cases hl : isLeadingSurrogate C with
      | false =>
        left
        rw [Encode_cons_scalar C rest hu hl ht] at h
        cases hr : Encode rest with
        | none => rw [hr] at h; simp at h
        | some e2 => rw [hr] at h; simp at h; exact ⟨hu, rfl, rfl, e2, rfl, h.symm⟩
      | true =>
        right
        cases rest with
        | nil => rw [Encode_leading_nil C hl] at h; simp at h
        | cons d rest2 =>
          cases hd : isTrailingSurrogate d with
          | false => rw [Encode_leading_unpaired C d rest2 hl hd] at h; simp at h
          | true =>
            rw [Encode_cons_pair C d rest2 hl hd] at h
            cases hr : Encode rest2 with
            | none => rw [hr] at h; simp at h
            | some e2 =>
              rw [hr] at h; simp at h
              exact ⟨rfl, d, rest2, e2, rfl, hd, hr, h.symm⟩

theorem IsJSString_cons (c : Nat) (s : JSString) :
    IsJSString (c :: s) ↔ c < 65536 ∧ IsJSString s := by
  simp [IsJSString]

/-! ## Decoding what `Encode` produced -/

theorem DecodeLoop_Encode_aux (n : Nat) : ∀ s : JSString, s.length ≤ n → IsJSString s →
    ∀ e, Encode s = some e → ∀ fuel, e.length ≤ fuel → DecodeLoop fuel e = some s := by
  induction n with
  | zero =>
    intro s hn _ e he fuel _
    have : s = [] := List.length_eq_zero.mp (by omega)
    subst this
    simp [Encode] at he
    subst he
    cases fuel <;> simp [DecodeLoop]
  | succ n ih =>
    intro s hn hs e he fuel hf
    cases s with
    | nil =>
      simp [Encode] at he
      subst he
      cases fuel <;> simp [DecodeLoop]
    | cons C rest =>
      rw [IsJSString_cons] at hs
      simp only [List.length_cons] at hn
      rcases Encode_cons_some C rest e he with ⟨hu, e2, hr, q⟩ | ⟨_, hl, ht, e2, hr, q⟩ |
        ⟨hl, d, rest2, e2, q2, hd, hr, q⟩
      · subst q
        simp only [List.length_cons] at hf
        obtain ⟨fuel, rfl⟩ : ∃ k, fuel = k + 1 := ⟨fuel - 1, by omega⟩
        rw [DecodeLoop_cons_plain fuel C e2 (alwaysUnescaped_ne_percent C hu),
          ih rest (by omega) hs.2 e2 hr fuel (by omega)]
        rfl
      · subst q
        have hlen := utf8Encode_length_pos C
        simp only [List.length_append, percentEncode_length] at hf
        obtain ⟨fuel, rfl⟩ : ∃ k, fuel = k + 1 := ⟨fuel - 1, by omega⟩
        have hS : ¬ (0xD800 ≤ C ∧ C ≤ 0xDFFF) := by
          intro hc
          by_cases hq : C ≤ 0xDBFF
          · have := (isLeadingSurrogate_iff C).mpr ⟨hc.1, hq⟩
            rw [hl] at this; cases this
          · have := (isTrailingSurrogate_iff C).mpr ⟨by omega, hc.2⟩
            rw [ht] at this; cases this
        rw [DecodeLoop_percentEncode fuel C e2 (by omega) hS,
          ih rest (by omega) hs.2 e2 hr fuel (by omega), UTF16EncodeCodePoint_bmp C hs.1]
        rfl
      · subst q2
        rw [q] at hf ⊢
        have hlen := utf8Encode_length_pos (UTF16SurrogatePairToCodePoint C d)
        simp only [List.length_append, percentEncode_length] at hf
        obtain ⟨fuel, rfl⟩ : ∃ k, fuel = k + 1 := ⟨fuel - 1, by omega⟩
        have hrange := UTF16SurrogatePairToCodePoint_range C d hl hd
        rw [IsJSString_cons] at hs
        simp only [List.length_cons] at hn
        rw [DecodeLoop_percentEncode fuel _ e2 hrange.2 (by omega),
          ih rest2 (by omega) hs.2.2 e2 hr fuel (by omega), UTF16EncodeCodePoint_pair C d hl hd]
        rfl

/-- `decodeURIComponent` undoes `encodeURIComponent`. -/
theorem decodeURIComponent_encodeURIComponent (s e : JSString) (hs : IsJSString s)
    (he : encodeURIComponent s = some e) : decodeURIComponent e = some s :=
  DecodeLoop_Encode_aux s.length s (le_refl _) hs e he e.length (le_refl _)

/-! ## The text `Encode` produces -/

theorem utf8Encode_lt (cp : Nat) (h : cp ≤ 0x10FFFF) : ∀ b ∈ utf8Encode cp, b < 256 := by
  unfold utf8Encode
  intro b hb
  split_ifs at hb <;> simp at hb <;> omega

theorem isEscapedText_cons_plain (c : Nat) (rest : JSString) (h : c ≠ 37) :
    isEscapedText (c :: rest) = (decide (c ∈ alwaysUnescaped) && isEscapedText rest) := by
  match rest with
  | [] => simp [isEscapedText, h]
  | [_] => simp [isEscapedText, h]
  | _ :: _ :: _ => simp [isEscapedText, h]

theorem isEscapedText_cons_percent (h1 h2 : Nat) (rest2 : JSString) :
    isEscapedText (37 :: h1 :: h2 :: rest2) =
      (isHexDigit h1 && isHexDigit h2 && isEscapedText rest2) := by
  simp [isEscapedText]

theorem isEscapedText_cons_unescaped (C : Nat) (e : JSString) (h : C ∈ alwaysUnescaped) :
    isEscapedText (C :: e) = isEscapedText e := by
  rw [isEscapedText_cons_plain C e (alwaysUnescaped_ne_percent C h)]
  simp [h]

theorem isEscapedText_percentEncodeOctet (b : Nat) (e : JSString) (h : b < 256) :
    isEscapedText (percentEncodeOctet b ++ e) = isEscapedText e := by
  simp only [percentEncodeOctet, List.cons_append, List.nil_append]
  rw [isEscapedText_cons_percent]
  simp [isHexDigit_hexDigitUpper (b / 16) (by omega), isHexDigit_hexDigitUpper (b % 16) (by omega)]

theorem isEscapedText_percentEncode (octets : List Nat) (e : JSString)
    (h : ∀ b ∈ octets, b < 256) : isEscapedText (percentEncode octets ++ e) = isEscapedText e := by
  induction octets with
  | nil => rfl
  | cons b bs ih =>
    rw [percentEncode_cons, List.append_assoc,
      isEscapedText_percentEncodeOctet b _ (h b (List.mem_cons_self _ _))]
    exact ih fun x hx => h x (List.mem_cons_of_mem _ hx)

theorem Encode_isEscapedText_aux (n : Nat) : ∀ s : JSString, s.length ≤ n → IsJSString s →
    ∀ e, Encode s = some e → isEscapedText e = true := by
  induction n with
  | zero =>
    intro s hn _ e he
    have : s = [] := List.length_eq_zero.mp (by omega)
    subst this
    simp [Encode] at he
    subst he
    rfl
  | succ n ih =>
    intro s hn hs e he
    cases s with
    | nil =>
      simp [Encode] at he
      subst he
      rfl
    | cons C rest =>
      rw [IsJSString_cons] at hs
      simp only [List.length_cons] at hn
      rcases Encode_cons_some C rest e he with ⟨hu, e2, hr, q⟩ | ⟨_, hl, ht, e2, hr, q⟩ |
        ⟨hl, d, rest2, e2, q2, hd, hr, q⟩
      · rw [q, isEscapedText_cons_unescaped C e2 hu]
        exact ih rest (by omega) hs.2 e2 hr
      · rw [q, isEscapedText_percentEncode _ e2 (utf8Encode_lt C (by omega))]
        exact ih rest (by omega) hs.2 e2 hr
      · subst q2
        rw [IsJSString_cons] at hs
        simp only [List.length_cons] at hn
        rw [q, isEscapedText_percentEncode _ e2
          (utf8Encode_lt _ (UTF16SurrogatePairToCodePoint_range C d hl hd).2)]
        exact ih rest2 (by omega) hs.2.2 e2 hr

/-- The result of `encodeURIComponent` is made of unescaped code units and escape
sequences only. -/
theorem encodeURIComponent_isEscapedText (s e : JSString) (hs : IsJSString s)
    (he : encodeURIComponent s = some e) : isEscapedText e = true :=
  Encode_isEscapedText_aux s.length s (le_refl _) hs e he

theorem isHexDigit_lt (c : Nat) (h : isHexDigit c = true) :
    (48 ≤ c ∧ c ≤ 57) ∨ (65 ≤ c ∧ c ≤ 70) ∨ (97 ≤ c ∧ c ≤ 102) := by
  unfold isHexDigit hexValue at h
  split_ifs at h with h1 h2 h3
  · exact Or.inl h1
  · exact Or.inr (Or.inl h2)
  · exact Or.inr (Or.inr h3)
  · simp at h

/-- The code units of escaped text: unescaped ones, the percent sign, hexadecimal
digits. -/
theorem isEscapedText_mem_aux (n : Nat) : ∀ e : JSString, e.length ≤ n →
    isEscapedText e = true →
    ∀ c ∈ e, c ∈ alwaysUnescaped ∨ c = 37 ∨ isHexDigit c = true := by
  induction n with
  | zero =>
    intro e hn _ c hc
    have : e = [] := List.length_eq_zero.mp (by omega)
    subst this
    simp at hc
  | succ n ih =>
    intro e hn he c hc
    match e, hn, he, hc with
    | [], _, _, hc => simp at hc
    | x :: rest, hn, he, hc =>
      by_cases hx : x = 37
      · subst hx
        match rest, hn, he, hc with
        | [], _, he, _ => simp [isEscapedText] at he
        | [_], _, he, _ => simp [isEscapedText] at he
        | h1 :: h2 :: rest2, hn, he, hc =>
          rw [isEscapedText_cons_percent] at he
          simp only [Bool.and_eq_true] at he
          simp only [List.length_cons] at hn
          simp only [List.mem_cons] at hc
          rcases hc with rfl | rfl | rfl | hc
          · exact Or.inr (Or.inl rfl)
          · exact Or.inr (Or.inr he.1.1)
          · exact Or.inr (Or.inr he.1.2)
          · exact ih rest2 (by omega) he.2 c hc
      · rw [isEscapedText_cons_plain x rest hx] at he
        simp only [Bool.and_eq_true, decide_eq_true_eq] at he
        simp only [List.length_cons] at hn
        simp only [List.mem_cons] at hc
        rcases hc with rfl | hc
        · exact Or.inl he.1
        · exact ih rest (by omega) he.2 c hc

theorem isEscapedText_mem (e : JSString) (he : isEscapedText e = true) (c : Nat) (hc : c ∈ e) :
    c ∈ alwaysUnescaped ∨ c = 37 ∨ isHexDigit c = true :=
  isEscapedText_mem_aux e.length e (le_refl _) he c hc

/-- Escaped text is ASCII and holds none of the separators of a URL, nor a space. -/
theorem isEscapedText_safe (e : JSString) (he : isEscapedText e = true) (c : Nat) (hc : c ∈ e) :
    c < 128 ∧ c ≠ 32 ∧ c ≠ 35 ∧ c ≠ 38 ∧ c ≠ 47 ∧ c ≠ 61 ∧ c ≠ 63 := by
  rcases isEscapedText_mem e he c hc with h | h | h
  · have hlt := alwaysUnescaped_lt c h
    refine ⟨hlt, ?_, ?_, ?_, ?_, ?_, ?_⟩ <;> (rintro rfl; exact absurd h (by decide))
  · omega
  · have := isHexDigit_lt c h
    omega

/-! ## When `Encode` returns -/

theorem not_surrogate_of_unescaped (C : Nat) (h : C ∈ alwaysUnescaped) :
    isLeadingSurrogate C = false ∧ isTrailingSurrogate C = false := by
  have hlt := alwaysUnescaped_lt C h
  constructor
  · cases hq : isLeadingSurrogate C with
    | false => rfl
    | true => rw [isLeadingSurrogate_iff] at hq; omega
  · cases hq : isTrailingSurrogate C with
    | false => rfl
    | true => rw [isTrailingSurrogate_iff] at hq; omega

theorem isWellFormed_cons_scalar (C : Nat) (rest : JSString) (hl : isLeadingSurrogate C = false) :
    isWellFormed (C :: rest) = (!isTrailingSurrogate C && isWellFormed rest) := by
  match rest with
  | [] => simp [isWellFormed, hl]
  | _ :: _ => simp [isWellFormed, hl]

theorem isWellFormed_leading_nil (C : Nat) (hl : isLeadingSurrogate C = true) :
    isWellFormed [C] = false := by
  simp [isWellFormed, hl]

theorem isWellFormed_cons_leading (C d : Nat) (rest2 : JSString)
    (hl : isLeadingSurrogate C = true) :
    isWellFormed (C :: d :: rest2) = (isTrailingSurrogate d && isWellFormed rest2) := by
  simp [isWellFormed, hl]

theorem Encode_isSome_aux (n : Nat) : ∀ s : JSString, s.length ≤ n →
    (Encode s).isSome = isWellFormed s := by
  induction n with
  | zero =>
    intro s hn
    have : s = [] := List.length_eq_zero.mp (by omega)
    subst this
    simp [Encode, isWellFormed]
  | succ n ih =>
    intro s hn
    match s, hn with
    | [], _ => simp [Encode, isWellFormed]
    | C :: rest, hn =>
      simp only [List.length_cons] at hn
      by_cases hu : C ∈ alwaysUnescaped
      · obtain ⟨hl, ht⟩ := not_surrogate_of_unescaped C hu
        rw [Encode_cons_unescaped C rest hu, isWellFormed_cons_scalar C rest hl, ht,
          ← ih rest (by omega)]
        simp
      · cases ht : isTrailingSurrogate C with
        | true =>
          have hl : isLeadingSurrogate C = false := by
            rw [isTrailingSurrogate_iff] at ht
            cases hq : isLeadingSurrogate C with
            | false => rfl
            | true => rw [isLeadingSurrogate_iff] at hq; omega
          rw [Encode_cons_trailing C rest ht, isWellFormed_cons_scalar C rest hl, ht]
          simp
        | false =>
          cases hl : isLeadingSurrogate C with
          | false =>
            rw [Encode_cons_scalar C rest hu hl ht, isWellFormed_cons_scalar C rest hl, ht,
              ← ih rest (by omega)]
            simp
          | true =>
            match rest, hn with
            | [], _ => rw [Encode_leading_nil C hl, isWellFormed_leading_nil C hl]; rfl
            | d :: rest2, hn =>
              simp only [List.length_cons] at hn
              rw [isWellFormed_cons_leading C d rest2 hl]
              cases hd : isTrailingSurrogate d with
              | false => rw [Encode_leading_unpaired C d rest2 hl hd]; rfl
              | true =>
                rw [Encode_cons_pair C d rest2 hl hd, ← ih rest2 (by omega)]
                simp

/-- `encodeURIComponent` returns exactly on the strings without an unpaired
surrogate. -/
theorem encodeURIComponent_isSome (s : JSString) :
    (encodeURIComponent s).isSome = isWellFormed s :=
  Encode_isSome_aux s.length s (le_refl _)

/-! ## Reading a query -/

theorem afterFirst_append (sep : Nat) (p x : JSString) (h : sep ∉ p) :
    afterFirst sep (p ++ sep :: x) = x := by
  induction p with
  | nil => simp [afterFirst]
  | cons c p ih =>
    simp only [List.mem_cons, not_or] at h
    have hc : c ≠ sep := fun q => h.1 q.symm
    simp only [List.cons_append, afterFirst, hc, ↓reduceIte]
    exact ih h.2

theorem splitAll_not_mem (sep : Nat) (a : JSString) (h : sep ∉ a) : splitAll sep a = [a] := by
  induction a with
  | nil => rfl
  | cons c a ih =>
    simp only [List.mem_cons, not_or] at h
    have hc : c ≠ sep := fun q => h.1 q.symm
    simp [splitAll, hc, ih h.2]

theorem splitAll_append (sep : Nat) (a b : JSString) (h : sep ∉ a) :
    splitAll sep (a ++ sep :: b) = a :: splitAll sep b := by
  induction a with
  | nil => simp [splitAll]
  | cons c a ih =>
    simp only [List.mem_cons, not_or] at h
    have hc : c ≠ sep := fun q => h.1 q.symm
    simp [splitAll, hc, ih h.2]

theorem splitFirst_append (sep : Nat) (a b : JSString) (h : sep ∉ a) :
    splitFirst sep (a ++ sep :: b) = some (a, b) := by
  induction a with
  | nil => simp [splitFirst]
  | cons c a ih =>
    simp only [List.mem_cons, not_or] at h
    have hc : c ≠ sep := fun q => h.1 q.symm
    simp [splitFirst, hc, ih h.2]

theorem API_BASE_cases (NODE_ENV : Option JSString) :
    API_BASE NODE_ENV = lit "/api" ∨ API_BASE NODE_ENV = lit "http://localhost:8000" := by
  unfold API_BASE
  split_ifs
  · exact Or.inl rfl
  · exact Or.inr rfl

theorem question_not_mem_base (NODE_ENV : Option JSString) :
    63 ∉ API_BASE NODE_ENV ++ lit "/frame_image" := by
  rcases API_BASE_cases NODE_ENV with h | h <;> rw [h] <;> decide

/-- The URL of `getFrameImageUrl`, cut at its separators. -/
theorem frameImageUrl_shape (base e1 e2 : JSString) :
    base ++ lit "/frame_image?folder_path=" ++ e1 ++ lit "&filename=" ++ e2 =
      (base ++ lit "/frame_image") ++
        63 :: ((lit "folder_path" ++ 61 :: e1) ++ 38 :: (lit "filename" ++ 61 :: e2)) := by
  have h1 : lit "/frame_image?folder_path=" = lit "/frame_image" ++ 63 :: (lit "folder_path" ++ [61]) := by
    decide
  have h2 : lit "&filename=" = 38 :: (lit "filename" ++ [61]) := by decide
  rw [h1, h2]
  simp

theorem not_mem_escaped (e : JSString) (he : isEscapedText e = true) :
    38 ∉ e ∧ 61 ∉ e ∧ 63 ∉ e := by
  refine ⟨?_, ?_, ?_⟩ <;> intro hc <;> have := isEscapedText_safe e he _ hc <;> omega

/-- The query of a frame-image URL, for any two escaped texts. -/
theorem queryPart_frameImageUrl (NODE_ENV : Option JSString) (e1 e2 : JSString) :
    queryPart (API_BASE NODE_ENV ++ lit "/frame_image?folder_path=" ++ e1 ++ lit "&filename=" ++ e2)
      = (lit "folder_path" ++ 61 :: e1) ++ 38 :: (lit "filename" ++ 61 :: e2) := by
  rw [frameImageUrl_shape, queryPart, afterFirst_append 63 _ _ (question_not_mem_base NODE_ENV)]

theorem queryPairs_frameImageUrl (NODE_ENV : Option JSString) (e1 e2 : JSString)
    (h1 : isEscapedText e1 = true) (h2 : isEscapedText e2 = true) :
    queryPairs (API_BASE NODE_ENV ++ lit "/frame_image?folder_path=" ++ e1 ++ lit "&filename=" ++ e2)
      = [some (lit "folder_path", e1), some (lit "filename", e2)] := by
  obtain ⟨a1, b1, _⟩ := not_mem_escaped e1 h1
  obtain ⟨a2, b2, _⟩ := not_mem_escaped e2 h2
  have k1 : 38 ∉ lit "folder_path" ++ 61 :: e1 := by
    have : 38 ∉ lit "folder_path" := by decide
    simp only [List.mem_append, List.mem_cons, not_or]
    exact ⟨this, by omega, a1⟩
  have k2 : 38 ∉ lit "filename" ++ 61 :: e2 := by
    have : 38 ∉ lit "filename" := by decide
    simp only [List.mem_append, List.mem_cons, not_or]
    exact ⟨this, by omega, a2⟩
  have k3 : 61 ∉ lit "folder_path" := by decide
  have k4 : 61 ∉ lit "filename" := by decide
  rw [queryPairs, queryPart_frameImageUrl, splitAll_append 38 _ _ k1, splitAll_not_mem 38 _ k2]
  simp only [List.map_cons, List.map_nil]
  rw [splitFirst_append 61 _ _ k3, splitFirst_append 61 _ _ k4]

/-! ## `getFrameImageUrl` -/

theorem getFrameImageUrl_some (NODE_ENV : Option JSString) (folderPath filename url : JSString)
    (h : api.getFrameImageUrl NODE_ENV folderPath filename = some url) :
    ∃ e1 e2, encodeURIComponent folderPath = some e1 ∧ encodeURIComponent filename = some e2 ∧
      url = API_BASE NODE_ENV ++ lit "/frame_image?folder_path=" ++ e1 ++ lit "&filename=" ++ e2 := by
  unfold api.getFrameImageUrl at h
  cases h1 : encodeURIComponent folderPath with
  | none => rw [h1] at h; simp at h
  | some e1 =>
    cases h2 : encodeURIComponent filename with
    | none => rw [h1, h2] at h; simp at h
    | some e2 =>
      rw [h1, h2] at h
      simp only [Option.some.injEq] at h
      exact ⟨e1, e2, rfl, rfl, h.symm⟩

theorem getFrameImageUrl_of_some (NODE_ENV : Option JSString) (folderPath filename e1 e2 : JSString)
    (h1 : encodeURIComponent folderPath = some e1) (h2 : encodeURIComponent filename = some e2) :
    api.getFrameImageUrl NODE_ENV folderPath filename =
      some (API_BASE NODE_ENV ++ lit "/frame_image?folder_path=" ++ e1 ++ lit "&filename=" ++ e2) := by
  unfold api.getFrameImageUrl
  rw [h1, h2]

theorem getFrameImageUrl_isSome (NODE_ENV : Option JSString) (folderPath filename : JSString) :
    (api.getFrameImageUrl NODE_ENV folderPath filename).isSome =
      (isWellFormed folderPath && isWellFormed filename) := by
  rw [← encodeURIComponent_isSome folderPath, ← encodeURIComponent_isSome filename]
  unfold api.getFrameImageUrl
  cases encodeURIComponent folderPath with
  | none => rfl
  | some e1 =>
    cases encodeURIComponent filename with
    | none => rfl
    | some e2 => rfl

theorem getFrameImageUrl_returns (NODE_ENV : Option JSString) (folderPath filename : JSString)
    (hf : isWellFormed folderPath = true) (hn : isWellFormed filename = true) :
    ∃ url, api.getFrameImageUrl NODE_ENV folderPath filename = some url := by
  apply Option.isSome_iff_exists.mp
  rw [getFrameImageUrl_isSome, hf, hn]
  rfl

/-- The query of a frame-image URL reads back as the two parameters, and their
values decode to the arguments. -/
theorem getFrameImageUrl_reads_back (NODE_ENV : Option JSString)
    (folderPath filename url : JSString) (hf : IsJSString folderPath) (hn : IsJSString filename)
    (h : api.getFrameImageUrl NODE_ENV folderPath filename = some url) :
    ∃ e1 e2, queryPairs url = [some (lit "folder_path", e1), some (lit "filename", e2)] ∧
      decodeURIComponent e1 = some folderPath ∧ decodeURIComponent e2 = some filename := by
  obtain ⟨e1, e2, h1, h2, hu⟩ := getFrameImageUrl_some NODE_ENV folderPath filename url h
  refine ⟨e1, e2, ?_, decodeURIComponent_encodeURIComponent folderPath e1 hf h1,
    decodeURIComponent_encodeURIComponent filename e2 hn h2⟩
  rw [hu]
  exact queryPairs_frameImageUrl NODE_ENV e1 e2
    (encodeURIComponent_isEscapedText folderPath e1 hf h1)
    (encodeURIComponent_isEscapedText filename e2 hn h2)

/-- C1: where `encodeURIComponent` is defined on both arguments, `getFrameImageUrl`
is the base URL, `/frame_image?folder_path=`, the encoded folder path, `&filename=`
and the encoded file name; with the base `/api` the arguments `a b/c` and `d&e.png`
give `/api/frame_image?folder_path=a%20b%2Fc&filename=d%26e.png`. -/
theorem getFrameImageUrl_eq :
    (∀ (NODE_ENV : Option JSString) (folderPath filename e1 e2 : JSString),
      encodeURIComponent folderPath = some e1 → encodeURIComponent filename = some e2 →
      api.getFrameImageUrl NODE_ENV folderPath filename =
        some (API_BASE NODE_ENV ++ lit "/frame_image?folder_path=" ++ e1 ++ lit "&filename="
          ++ e2)) ∧
    API_BASE (some (lit "development")) = lit "/api" ∧
    api.getFrameImageUrl (some (lit "development")) (lit "a b/c") (lit "d&e.png") =
      some (lit "/api/frame_image?folder_path=a%20b%2Fc&filename=d%26e.png") :=
  ⟨getFrameImageUrl_of_some, by decide, by decide⟩

/-- C2: `getFrameImageUrl` returns a URL for arguments without an unpaired
surrogate, and the query of every URL it returns, split at `&` and then at the
first `=`, is exactly the pairs `folder_path`, `filename` with two values that
`decodeURIComponent` takes back to the folder path and the file name. -/
theorem getFrameImageUrl_decodable (NODE_ENV : Option JSString)
    (folderPath filename : JSString) (hf : IsJSString folderPath) (hn : IsJSString filename) :
    (isWellFormed folderPath = true → isWellFormed filename = true →
      ∃ url, api.getFrameImageUrl NODE_ENV folderPath filename = some url) ∧
    ∀ url, api.getFrameImageUrl NODE_ENV folderPath filename = some url →
      ∃ e1 e2, queryPairs url = [some (lit "folder_path", e1), some (lit "filename", e2)] ∧
        decodeURIComponent e1 = some folderPath ∧ decodeURIComponent e2 = some filename :=
  ⟨getFrameImageUrl_returns NODE_ENV folderPath filename,
    fun url h => getFrameImageUrl_reads_back NODE_ENV folderPath filename url hf hn h⟩

theorem getFrameImageUrl_decodable_witness :
    ∃ e1 e2, queryPairs (lit "/api/frame_image?folder_path=a%20b%2Fc&filename=d%26e.png") =
        [some (lit "folder_path", e1), some (lit "filename", e2)] ∧
      decodeURIComponent e1 = some (lit "a b/c") ∧ decodeURIComponent e2 = some (lit "d&e.png") :=
  (getFrameImageUrl_decodable (some (lit "development")) (lit "a b/c") (lit "d&e.png")
    (by decide) (by decide)).2
    (lit "/api/frame_image?folder_path=a%20b%2Fc&filename=d%26e.png") (by decide)

theorem count_eq_zero_of_escaped (e : JSString) (he : isEscapedText e = true) :
    List.count 38 e = 0 ∧ List.count 61 e = 0 := by
  obtain ⟨a, b, _⟩ := not_mem_escaped e he
  exact ⟨List.count_eq_zero.mpr a, List.count_eq_zero.mpr b⟩

theorem Encode_scalar_singleton (cp : Nat) (h : 0x80 ≤ cp) (hU : cp ≤ 0x10FFFF)
    (hS : ¬ (0xD800 ≤ cp ∧ cp ≤ 0xDFFF)) :
    encodeURIComponent (UTF16EncodeCodePoint cp) = some (percentEncode (utf8Encode cp)) := by
  unfold encodeURIComponent
  by_cases hb : cp < 65536
  · have hu : cp ∉ alwaysUnescaped := fun hm => by
      have := alwaysUnescaped_lt cp hm
      omega
    have hl : isLeadingSurrogate cp = false := by
      cases hq : isLeadingSurrogate cp with
      | false => rfl
      | true => rw [isLeadingSurrogate_iff] at hq; omega
    have ht : isTrailingSurrogate cp = false := by
      cases hq : isTrailingSurrogate cp with
      | false => rfl
      | true => rw [isTrailingSurrogate_iff] at hq; omega
    rw [UTF16EncodeCodePoint_bmp cp hb, Encode_cons_scalar cp [] hu hl ht]
    simp [Encode]
  · have hl : isLeadingSurrogate ((cp - 0x10000) / 0x400 + 0xD800) = true := by
      rw [isLeadingSurrogate_iff]; omega
    have ht : isTrailingSurrogate ((cp - 0x10000) % 0x400 + 0xDC00) = true := by
      rw [isTrailingSurrogate_iff]; omega
    have hp : UTF16SurrogatePairToCodePoint ((cp - 0x10000) / 0x400 + 0xD800)
        ((cp - 0x10000) % 0x400 + 0xDC00) = cp := by
      unfold UTF16SurrogatePairToCodePoint; omega
    unfold UTF16EncodeCodePoint
    rw [if_neg (by omega), Encode_cons_pair _ _ [] hl ht, hp]
    simp [Encode]

/-- C3: `getFrameImageUrl` returns a URL for arguments without an unpaired
surrogate, and in every URL it returns the two inserted segments are made only of
unescaped code units (ASCII letters, digits and the marks) and of escape sequences,
a percent sign with two hexadecimal digits; so they are ASCII and hold no space,
`#`, `&`, `/`, `=` or `?`; a code point outside ASCII is written as the escaped
octets of its UTF-8 form; the query of the result holds one `&` and two `=`. -/
theorem getFrameImageUrl_escaped (NODE_ENV : Option JSString)
    (folderPath filename : JSString) (hf : IsJSString folderPath) (hn : IsJSString filename) :
    (isWellFormed folderPath = true → isWellFormed filename = true →
      ∃ url, api.getFrameImageUrl NODE_ENV folderPath filename = some url) ∧
    (∀ url, api.getFrameImageUrl NODE_ENV folderPath filename = some url →
      (∃ e1 e2, encodeURIComponent folderPath = some e1 ∧ encodeURIComponent filename = some e2 ∧
        url = API_BASE NODE_ENV ++ lit "/frame_image?folder_path=" ++ e1 ++ lit "&filename="
          ++ e2 ∧
        isEscapedText e1 = true ∧ isEscapedText e2 = true ∧
        (∀ c ∈ e1 ++ e2, (c ∈ alwaysUnescaped ∨ c = 37 ∨ isHexDigit c = true) ∧
          c < 128 ∧ c ≠ 32 ∧ c ≠ 35 ∧ c ≠ 38 ∧ c ≠ 47 ∧ c ≠ 61 ∧ c ≠ 63)) ∧
      List.count 38 (queryPart url) = 1 ∧ List.count 61 (queryPart url) = 2) ∧
    (∀ cp, 0x80 ≤ cp → cp ≤ 0x10FFFF → ¬ (0xD800 ≤ cp ∧ cp ≤ 0xDFFF) →
      encodeURIComponent (UTF16EncodeCodePoint cp) = some (percentEncode (utf8Encode cp))) ∧
    encodeURIComponent (lit "é€😀") = some (lit "%C3%A9%E2%82%AC%F0%9F%98%80") := by
  refine ⟨getFrameImageUrl_returns NODE_ENV folderPath filename, fun url h => ?_,
    Encode_scalar_singleton, by decide⟩
  obtain ⟨e1, e2, h1, h2, hu⟩ := getFrameImageUrl_some NODE_ENV folderPath filename url h
  have k1 := encodeURIComponent_isEscapedText folderPath e1 hf h1
  have k2 := encodeURIComponent_isEscapedText filename e2 hn h2
  refine ⟨⟨e1, e2, h1, h2, hu, k1, k2, ?_⟩, ?_, ?_⟩
  · intro c hc
    rcases List.mem_append.mp hc with hc | hc
    · exact ⟨isEscapedText_mem e1 k1 c hc, isEscapedText_safe e1 k1 c hc⟩
    · exact ⟨isEscapedText_mem e2 k2 c hc, isEscapedText_safe e2 k2 c hc⟩
  · rw [hu, queryPart_frameImageUrl]
    have c1 : List.count 38 (lit "folder_path") = 0 := by decide
    have c2 : List.count 38 (lit "filename") = 0 := by decide
    simp [List.count_append, List.count_cons, c1, c2, (count_eq_zero_of_escaped e1 k1).1,
      (count_eq_zero_of_escaped e2 k2).1]
  · rw [hu, queryPart_frameImageUrl]
    have c1 : List.count 61 (lit "folder_path") = 0 := by decide
    have c2 : List.count 61 (lit "filename") = 0 := by decide
    simp [List.count_append, List.count_cons, c1, c2, (count_eq_zero_of_escaped e1 k1).2,
      (count_eq_zero_of_escaped e2 k2).2]

theorem getFrameImageUrl_escaped_witness :
    List.count 38 (queryPart (lit "/api/frame_image?folder_path=a%20b%2Fc&filename=d%26e.png")) = 1
      ∧ List.count 61
        (queryPart (lit "/api/frame_image?folder_path=a%20b%2Fc&filename=d%26e.png")) = 2 :=
  ((getFrameImageUrl_escaped (some (lit "development")) (lit "a b/c") (lit "d&e.png")
    (by decide) (by decide)).2.1
    (lit "/api/frame_image?folder_path=a%20b%2Fc&filename=d%26e.png") (by decide)).2

/-- C4, as the code has it: `getFrameImageUrl` returns a string exactly when neither
argument holds an unpaired surrogate; on an argument with an unpaired surrogate
`encodeURIComponent` throws a `URIError` and no string is returned. -/
theorem getFrameImageUrl_returns_iff (NODE_ENV : Option JSString)
    (folderPath filename : JSString) :
    (api.getFrameImageUrl NODE_ENV folderPath filename).isSome =
      (isWellFormed folderPath && isWellFormed filename) :=
  getFrameImageUrl_isSome NODE_ENV folderPath filename

/-- C4 fails as stated: the one-unit string with the unpaired surrogate `0xD800` is a
JavaScript string, and `getFrameImageUrl` throws on it. -/
theorem getFrameImageUrl_throws :
    IsJSString [0xD800] ∧ IsJSString [] ∧
      api.getFrameImageUrl (some (lit "development")) [0xD800] [] = none := by
  decide

/-- C5: `API_BASE` is `/api` exactly when `NODE_ENV` is the string `development`; for
every other value, an absent one, `production`, `test`, `Development` and the empty
string among them, it is `http://localhost:8000`. -/
theorem API_BASE_selection :
    (∀ NODE_ENV : Option JSString,
      (API_BASE NODE_ENV = lit "/api" ↔ NODE_ENV = some (lit "development")) ∧
      (NODE_ENV ≠ some (lit "development") → API_BASE NODE_ENV = lit "http://localhost:8000")) ∧
    API_BASE none = lit "http://localhost:8000" ∧
    API_BASE (some (lit "production")) = lit "http://localhost:8000" ∧
    API_BASE (some (lit "test")) = lit "http://localhost:8000" ∧
    API_BASE (some (lit "Development")) = lit "http://localhost:8000" ∧
    API_BASE (some (lit "")) = lit "http://localhost:8000" := by
  refine ⟨fun NODE_ENV => ⟨⟨fun h => ?_, fun h => ?_⟩, fun h => ?_⟩, by decide, by decide,
    by decide, by decide, by decide⟩
  · by_contra hne
    unfold API_BASE at h
    rw [if_neg hne] at h
    exact absurd h (by decide)
  · unfold API_BASE
    rw [if_pos h]
  · unfold API_BASE
    rw [if_neg h]

/-! ## The request-issuing operations -/

/-- C6: for every string, `scanFolder` hands the transport exactly one request: a
POST to `/scan_folder` whose body is the object with the one key `folder_path` and
the argument itself as its value; `/videos/x` is sent as that body. -/
theorem scanFolder_request (NODE_ENV : Option JSString) (adapter : Adapter)
    (folderPath : JSString) :
    (api.scanFolder NODE_ENV adapter folderPath).sent =
      [{ method := .post, url := lit "/scan_folder",
         data := some (.object [(lit "folder_path", .string folderPath)]),
         baseURL := API_BASE NODE_ENV, timeout := 30000 }] ∧
    (api.scanFolder NODE_ENV adapter (lit "/videos/x")).sent =
      [{ method := .post, url := lit "/scan_folder",
         data := some (.object [(lit "folder_path", .string (lit "/videos/x"))]),
         baseURL := API_BASE NODE_ENV, timeout := 30000 }] :=
  ⟨rfl, rfl⟩

theorem escaped_ne_of_separator (taskId e : JSString) (hs : IsJSString taskId)
    (hm : 47 ∈ taskId ∨ 63 ∈ taskId ∨ 35 ∈ taskId) (he : encodeURIComponent taskId = some e) :
    lit "/task_status/" ++ taskId ≠ lit "/task_status/" ++ e := by
  intro heq
  have hte : taskId = e := List.append_cancel_left heq
  have k := encodeURIComponent_isEscapedText taskId e hs he
  rw [← hte] at k
  rcases hm with hm | hm | hm <;> have := isEscapedText_safe taskId k _ hm <;> omega

/-- C7: for every string, `getTaskStatus` hands the transport exactly one request: a
GET without a body whose path is `/task_status/` followed by the task id as it is;
`abc123` asks for `/task_status/abc123`; for a task id with `/`, `?` or `#`, such as
`a/b?c`, that path is not the one with the encoded task id. -/
theorem getTaskStatus_request (NODE_ENV : Option JSString) (adapter : Adapter)
    (taskId : JSString) :
    (api.getTaskStatus NODE_ENV adapter taskId).sent =
      [{ method := .get, url := lit "/task_status/" ++ taskId, data := none,
         baseURL := API_BASE NODE_ENV, timeout := 30000 }] ∧
    (api.getTaskStatus NODE_ENV adapter (lit "abc123")).sent =
      [{ method := .get, url := lit "/task_status/abc123", data := none,
         baseURL := API_BASE NODE_ENV, timeout := 30000 }] ∧
    (∀ e, IsJSString taskId → (47 ∈ taskId ∨ 63 ∈ taskId ∨ 35 ∈ taskId) →
      encodeURIComponent taskId = some e →
      lit "/task_status/" ++ taskId ≠ lit "/task_status/" ++ e) ∧
    (api.getTaskStatus NODE_ENV adapter (lit "a/b?c")).sent =
      [{ method := .get, url := lit "/task_status/a/b?c", data := none,
         baseURL := API_BASE NODE_ENV, timeout := 30000 }] ∧
    encodeURIComponent (lit "a/b?c") = some (lit "a%2Fb%3Fc") ∧
    lit "/task_status/a/b?c" ≠ lit "/task_status/" ++ lit "a%2Fb%3Fc" := by
  refine ⟨rfl, ?_, fun e hs hm he => escaped_ne_of_separator taskId e hs hm he, ?_, by decide,
    by decide⟩
  · have : lit "/task_status/" ++ lit "abc123" = lit "/task_status/abc123" := by decide
    rw [← this]; rfl
  · have : lit "/task_status/" ++ lit "a/b?c" = lit "/task_status/a/b?c" := by decide
    rw [← this]; rfl

theorem request_mapsOutcome (adapter : Adapter) (config : AxiosRequestConfig) :
    MapsOutcome adapter (apiClient.request adapter config) := by
  refine ⟨config, rfl, fun response h => ?_, fun error h => ⟨?_, ?_⟩⟩
  · simp [apiClient.request, Outcome.andThen, apiClient.requestFulfilled, h,
      apiClient.responseFulfilled]
  · simp [apiClient.request, Outcome.andThen, apiClient.requestFulfilled, h,
      apiClient.responseRejected]
  · intro value
    simp [apiClient.request, Outcome.andThen, apiClient.requestFulfilled, h,
      apiClient.responseRejected]

/-- C8: each of `scanFolder`, `segmentFrame`, `segmentFrames` and `getTaskStatus`
resolves to the `data` of the response when the transport succeeds, and rejects
with the very error of the transport, never resolving, when it fails. -/
theorem operations_mapOutcome (NODE_ENV : Option JSString) (adapter : Adapter)
    (folderPath taskId : JSString) (data : JSValue) :
    MapsOutcome adapter (api.scanFolder NODE_ENV adapter folderPath) ∧
    MapsOutcome adapter (api.segmentFrame NODE_ENV adapter data) ∧
    MapsOutcome adapter (api.segmentFrames NODE_ENV adapter data) ∧
    MapsOutcome adapter (api.getTaskStatus NODE_ENV adapter taskId) :=
  ⟨request_mapsOutcome adapter _, request_mapsOutcome adapter _, request_mapsOutcome adapter _,
    request_mapsOutcome adapter _⟩

/-- C9: `segmentFrame` and `segmentFrames` each hand the transport exactly one
request, a POST to `/segment_frame` and to `/segment_frames`, with the argument
itself as the body; the request interceptor returns every configuration as it is. -/
theorem segment_requests (NODE_ENV : Option JSString) (adapter : Adapter) (data : JSValue) :
    (api.segmentFrame NODE_ENV adapter data).sent =
      [{ method := .post, url := lit "/segment_frame", data := some data,
         baseURL := API_BASE NODE_ENV, timeout := 30000 }] ∧
    (api.segmentFrames NODE_ENV adapter data).sent =
      [{ method := .post, url := lit "/segment_frames", data := some data,
         baseURL := API_BASE NODE_ENV, timeout := 30000 }] ∧
    ∀ config, apiClient.requestFulfilled config = .fulfilled config :=
  ⟨rfl, rfl, fun _ => rfl⟩

/-- C10: `getFrameImageUrl` is injective where it is defined: two pairs of arguments
with the same URL are the same pair. -/
theorem getFrameImageUrl_injective (NODE_ENV : Option JSString) (f1 n1 f2 n2 : JSString)
    (h1 : IsJSString f1) (h2 : IsJSString n1) (h3 : IsJSString f2) (h4 : IsJSString n2)
    (hd : (api.getFrameImageUrl NODE_ENV f1 n1).isSome = true)
    (heq : api.getFrameImageUrl NODE_ENV f1 n1 = api.getFrameImageUrl NODE_ENV f2 n2) :
    f1 = f2 ∧ n1 = n2 := by
  obtain ⟨url, hu⟩ := Option.isSome_iff_exists.mp hd
  have hu2 : api.getFrameImageUrl NODE_ENV f2 n2 = some url := by rw [← heq]; exact hu
  obtain ⟨a1, a2, qa, da1, da2⟩ := getFrameImageUrl_reads_back NODE_ENV f1 n1 url h1 h2 hu
  obtain ⟨b1, b2, qb, db1, db2⟩ := getFrameImageUrl_reads_back NODE_ENV f2 n2 url h3 h4 hu2
  rw [qa] at qb
  simp only [List.cons.injEq, Option.some.injEq, Prod.mk.injEq, true_and, and_true] at qb
  obtain ⟨q1, q2⟩ := qb
  rw [q1, db1] at da1
  rw [q2, db2] at da2
  exact ⟨(Option.some.inj da1).symm, (Option.some.inj da2).symm⟩

theorem getFrameImageUrl_injective_witness :
    lit "a&filename=b" = lit "a&filename=b" ∧ lit "c=d" = lit "c=d" :=
  getFrameImageUrl_injective (some (lit "development")) (lit "a&filename=b") (lit "c=d")
    (lit "a&filename=b") (lit "c=d") (by decide) (by decide) (by decide) (by decide)
    (by decide) rfl

/-! ## The model on known values -/

theorem decodeURIComponent_examples :
    decodeURIComponent (lit "%C3%A9%E2%82%AC%F0%9F%98%80a%20b%2fc") = some (lit "é€😀a b/c") ∧
    decodeURIComponent (lit "%C0%80") = none ∧
    decodeURIComponent (lit "%ED%A0%80") = none ∧
    decodeURIComponent (lit "%F4%90%80%80") = none ∧
    decodeURIComponent (lit "%2") = none ∧
    decodeURIComponent (lit "%zz") = none := by
  decide

theorem encodeURIComponent_examples :
    encodeURIComponent (lit "AZaz09-_.!~*'()") = some (lit "AZaz09-_.!~*'()") ∧
    encodeURIComponent (lit " #$&+,/:;=?@[]") =
      some (lit "%20%23%24%26%2B%2C%2F%3A%3B%3D%3F%40%5B%5D") ∧
    encodeURIComponent [0xD800] = none ∧
    encodeURIComponent [0xDC00, 0xD800] = none ∧
    encodeURIComponent [0xD800, 0x41] = none ∧
    encodeURIComponent [0xD83D, 0xDE00] = some (lit "%F0%9F%98%80") := by
  decide

theorem queryPairs_example :
    queryPairs (lit "/api/frame_image?folder_path=a%20b%2Fc&filename=d%26e.png") =
      [some (lit "folder_path", lit "a%20b%2Fc"), some (lit "filename", lit "d%26e.png")] := by
  decide

end QwenVL
